import Mathlib

/-!
# errplane-go: the batching / merge / flush pipeline of `api.go`

A shallow embedding of the client in `src/api.go`, and the properties of it
that the specification states.

Conventions of the embedding

* A Go `string` is a Lean `String`; `len(s)` is the number of bytes of the
  UTF-8 encoding, `String.utf8ByteSize`. Byte sequences that are not valid
  UTF-8 are outside the embedding.
* A Go `error` is a value of `Option String`: `none` is `nil`, `some msg` is an
  error whose `Error()` text is `msg`.
* Pointers to structs (`*WriteOperation`, `*JsonPoints`, `*JsonPoint`) that the
  code always dereferences are embedded as the struct they point to; the one
  pointer the code tests against `nil`, the result of `mergeMetrics`, is an
  `Option`.
* A slice is a `List`; a `nil` slice and an empty one are the same list.
* `map[string][]*JsonPoint` is an association list with pairwise distinct
  keys. Ranging over a Go map visits the entries in an unspecified order; the
  embedding visits them in the order the keys were first assigned, and the
  theorems about the result of a `range` are stated for every reordering of it.
* Channel operations and calls that leave the process are effects, recorded in
  an explicit trace.
* Diagnostic output to stdout (`fmt.Println`) is not part of the embedding.
-/

namespace ErrplaneGo

/-! ## Data model (api.go, lines 17-34) -/

/-- One measurement, `type JsonPoint struct` -/
structure JsonPoint where
  Value : Float
  Context : String
  Time : Int
  Dimensions : List (String × String)

/-- A metric name with its points, `type JsonPoints struct` -/
structure JsonPoints where
  Name : String
  Columns : List String
  Points : List JsonPoint

/-- One batch, `type WriteOperation struct` -/
structure WriteOperation where
  Writes : List JsonPoints

/-- The Go value `map[string][]*JsonPoint` -/
abbrev PointMap := List (String × List JsonPoint)

/-- The map read `m[name]`: the value stored under `name`, the zero value (a nil
slice) when the key is absent -/
def mapIndex : PointMap → String → List JsonPoint
  | [], _ => []
  | (k, v) :: rest, name => if k = name then v else mapIndex rest name

/-- The map write `m[name] = v`: replaces the value of an existing key, adds the
key otherwise -/
def mapAssign : PointMap → String → List JsonPoint → PointMap
  | [], name, v => [(name, v)]
  | (k, w) :: rest, name, v =>
    if k = name then (k, v) :: rest else (k, w) :: mapAssign rest name v

/-! ## mergeMetrics (api.go, lines 123-150) -/

/-- The body of the inner loop of `mergeMetrics`, line 132-133:
`metricToPoints[name] = append(metricToPoints[name], jsonPoints.Points...)` -/
def mergeStep (metricToPoints : PointMap) (jsonPoints : JsonPoints) : PointMap :=
  let name := jsonPoints.Name
  mapAssign metricToPoints name (mapIndex metricToPoints name ++ jsonPoints.Points)

/-- The two nested loops of `mergeMetrics`, lines 130-135 -/
def collectPoints (operations : List WriteOperation) : PointMap :=
  operations.foldl
    (fun metricToPoints operation => operation.Writes.foldl mergeStep metricToPoints) []

/-- The struct literal of lines 140-144 -/
def mergedEntry (metric : String) (points : List JsonPoint) : JsonPoints :=
  { Name := metric, Columns := ["value", "time", "dimensions"], Points := points }

/-- The output loop of `mergeMetrics`, lines 137-145 -/
def emitMetrics (metricToPoints : PointMap) : List JsonPoints :=
  metricToPoints.foldl
    (fun mergedMetrics entry => mergedMetrics ++ [mergedEntry entry.1 entry.2]) []

/-- The function `mergeMetrics`: `none` is the `nil` returned for an empty input -/
def mergeMetrics (operations : List WriteOperation) : Option WriteOperation :=
  if operations.length = 0 then none
  else some { Writes := emitMetrics (collectPoints operations) }

/-- The entries of a merged payload; the `nil` payload has none -/
def payloadWrites : Option WriteOperation → List JsonPoints
  | none => []
  | some w => w.Writes

/-- All NamedPointSets of the input in arrival order: batches in list order,
then the sets of a batch in their order -/
def arrivals (operations : List WriteOperation) : List JsonPoints :=
  operations.flatMap (fun operation => operation.Writes)

/-- The points submitted under `name`, in arrival order -/
def pointsNamed (name : String) (operations : List WriteOperation) : List JsonPoint :=
  ((arrivals operations).filter (fun jp => decide (jp.Name = name))).flatMap
    (fun jp => jp.Points)

/-- Number of points of a sequence of NamedPointSets -/
def pointCount (sets : List JsonPoints) : Nat :=
  (sets.map (fun jp => jp.Points.length)).sum

/-- All points of a sequence of NamedPointSets, in order -/
def allPoints (sets : List JsonPoints) : List JsonPoint :=
  sets.flatMap (fun jp => jp.Points)

/-- Keys of a map, in first-assignment order -/
def mapKeys (m : PointMap) : List String := m.map (fun e => e.1)

/-- Sample input: two batches, the name `cpu` in both, `mem` in the first -/
def sampleBatches : List WriteOperation :=
  [ { Writes := [ mergedEntry "cpu" [⟨0.5, "", 10, []⟩], mergedEntry "mem" [⟨64, "", 10, []⟩] ] },
    { Writes := [ mergedEntry "cpu" [⟨0.75, "", 11, []⟩] ] } ]

/-- The merge of `sampleBatches` as a map ranged over with `mem` first -/
def sampleMerged : List JsonPoints :=
  [ mergedEntry "mem" [⟨64, "", 10, []⟩],
    mergedEntry "cpu" [⟨0.5, "", 10, []⟩, ⟨0.75, "", 11, []⟩] ]

/-! ## verifyMetricName (api.go, lines 36 and 340-350) -/

/-- The character class `[a-zA-Z0-9._]` of `METRIC_REGEX`, on code points:
`a`-`z` is 97-122, `A`-`Z` is 65-90, `0`-`9` is 48-57, `.` is 46, `_` is 95 -/
def metricChar (c : Char) : Bool :=
  (decide (97 ≤ c.toNat) && decide (c.toNat ≤ 122)) ||
  (decide (65 ≤ c.toNat) && decide (c.toNat ≤ 90)) ||
  (decide (48 ≤ c.toNat) && decide (c.toNat ≤ 57)) ||
  decide (c.toNat = 46) || decide (c.toNat = 95)

/-- The call `METRIC_REGEX.MatchString(name)` for the pattern `^[a-zA-Z0-9._]*$`:
anchored at both ends of the text, so the whole of `name` is a (possibly empty)
run of characters of the class -/
def METRIC_REGEX_MatchString (name : String) : Bool :=
  name.data.all metricChar

/-- The function `verifyMetricName`; `len(name)` counts bytes -/
def verifyMetricName (name : String) : Option String :=
  if name.utf8ByteSize > 255 then
    some "Metric names must be less than 255 characters"
  else if !METRIC_REGEX_MatchString name then
    some ("Invalid metric name " ++ name ++ ". See docs for valid metric names")
  else
    none

/-- The characters of the class `[A-Za-z0-9._]` of the specification, written
out one by one -/
def allowedChars : List Char :=
  "ABCDEFGHIJKLMNOPQRSTUVWXYZabcdefghijklmnopqrstuvwxyz0123456789._".data

/-! ## Report and sendCommon (api.go, lines 308-338) -/

/-- A `time.Time`, as seconds and nanoseconds since the Unix epoch -/
structure Time where
  sec : Int
  nsec : Nat

/-- The method `Time.Unix`: whole seconds since the epoch -/
def Time.Unix (t : Time) : Int := t.sec

/-- The function `sendCommon`. The result is the returned error together with
the values sent on `msgChan`, in order -/
def sendCommon (metric : String) (value : Float) (timestamp : Option Time)
    (context : String) (dimensions : List (String × String)) :
    Option String × List WriteOperation :=
  match verifyMetricName metric with
  | some err => (some err, [])
  | none =>
    let point : JsonPoint :=
      { Value := value, Context := context, Time := 0, Dimensions := dimensions }
    let point : JsonPoint :=
      match timestamp with
      | some t => { point with Time := t.Unix }
      | none => point
    let data : WriteOperation :=
      { Writes := [{ Name := metric, Columns := ["value", "time", "dimensions"],
                     Points := [point] }] }
    (none, [data])

/-- The method `Report` -/
def Report (metric : String) (value : Float) (timestamp : Time) (context : String)
    (dimensions : List (String × String)) : Option String × List WriteOperation :=
  sendCommon metric value (some timestamp) context dimensions

/-! ## responseToError (api.go, lines 165-181) -/

/-- What the code reads of an `http.Response`: the status code, and the outcome
of `ioutil.ReadAll(response.Body)`, either a read error or the body text -/
structure Response where
  StatusCode : Int
  Body : Except String String

set_option linter.unusedVariables false in
/-- The function `responseToError`. `response` is `none` for a nil pointer; the
outer `Except.error` is the nil-pointer panic of dereferencing it. The two
deferred `Body.Close()` calls do not change the result -/
def responseToError (response : Option Response) (err : Option String)
    (closeResponse : Bool) : Except String (Option String) :=
  match err with
  | some e => .ok (some e)
  | none =>
    match response with
    | none => .error "invalid memory address or nil pointer dereference"
    | some r =>
      if r.StatusCode ≥ 200 ∧ r.StatusCode < 300 then .ok none
      else
        match r.Body with
        | .error e => .ok (some e)
        | .ok body =>
          .ok (some ("Server returned (" ++ toString r.StatusCode ++ "): " ++ body))

/-! ## SetHttpHost, New, newCommon (api.go, lines 38-79 and 192-197) -/

/-- The UTF-8 encoding of a character, as byte values -/
def utf8Bytes (c : Char) : List Nat :=
  let v := c.toNat
  if v ≤ 127 then [v]
  else if v ≤ 2047 then [192 + v / 64, 128 + v % 64]
  else if v ≤ 65535 then [224 + v / 4096, 128 + v / 64 % 64, 128 + v % 64]
  else [240 + v / 262144, 128 + v / 4096 % 64, 128 + v / 64 % 64, 128 + v % 64]

/-- One upper-case hexadecimal digit -/
def hexDigit (n : Nat) : Char :=
  if n < 10 then Char.ofNat (48 + n) else Char.ofNat (55 + n)

/-- The characters `net/url` leaves as they are in a query component: letters,
digits, `-`, `_`, `.`, `~` -/
def unreserved (c : Char) : Bool :=
  (decide (97 ≤ c.toNat) && decide (c.toNat ≤ 122)) ||
  (decide (65 ≤ c.toNat) && decide (c.toNat ≤ 90)) ||
  (decide (48 ≤ c.toNat) && decide (c.toNat ≤ 57)) ||
  decide (c.toNat = 45) || decide (c.toNat = 95) || decide (c.toNat = 46) ||
  decide (c.toNat = 126)

/-- The escape of one character by `url.QueryEscape`: unreserved characters
stay, a space becomes `+`, every other byte becomes `%XX` -/
def escapeChar (c : Char) : List Char :=
  if unreserved c then [c]
  else if c.toNat = 32 then ['+']
  else (utf8Bytes c).flatMap (fun b => ['%', hexDigit (b / 16), hexDigit (b % 16)])

/-- The standard library function `url.QueryEscape` -/
def QueryEscape (s : String) : String :=
  String.mk (s.data.flatMap escapeChar)

/-- Byte-wise lexicographic order of strings, the order of `sort.Strings`; on
UTF-8 text it is the lexicographic order of the code points -/
def strLe : List Char → List Char → Bool
  | [], _ => true
  | _ :: _, [] => false
  | a :: as, b :: bs =>
    if a.toNat < b.toNat then true
    else if b.toNat < a.toNat then false
    else strLe as bs

/-- The type `url.Values`, a `map[string][]string` -/
abbrev Values := List (String × List String)

/-- The method `Values.Set`: `v[key] = []string{value}` -/
def Values.Set : Values → String → String → Values
  | [], key, value => [(key, [value])]
  | (k, w) :: rest, key, value =>
    if k = key then (k, [value]) :: rest else (k, w) :: Values.Set rest key value

/-- Insertion of an entry into a list of entries sorted by key -/
def insertByKey (e : String × List String) : Values → Values
  | [] => [e]
  | f :: rest => if strLe e.1.data f.1.data then e :: f :: rest else f :: insertByKey e rest

/-- The entries of a `url.Values` sorted by key -/
def sortByKey (v : Values) : Values :=
  v.foldr insertByKey []

/-- The standard library method `Values.Encode`: "encodes the values into URL
encoded form (`bar=baz&foo=quux`) sorted by key" -/
def Values.Encode (v : Values) : String :=
  "&".intercalate
    ((sortByKey v).flatMap
      (fun e => e.2.map (fun value => QueryEscape e.1 ++ "=" ++ QueryEscape value)))

/-- The type `InfluxDBConfig` -/
structure InfluxDBConfig where
  Host : String
  Database : String
  Username : String
  Password : String

/-- The fields of `type Errplane struct` that are plain data; the two channels
are effects of the consumer loop. Durations are in nanoseconds -/
structure Errplane where
  proto : String
  url : String
  Timeout : Nat
  closed : Bool
  timeout : Nat
  runtimeStatsRunning : Bool
  DBConfig : InfluxDBConfig

/-- The method `SetHttpHost` -/
def SetHttpHost (self : Errplane) (host : String) : Errplane :=
  let params : Values := []
  let params := params.Set "u" self.DBConfig.Username
  let params := params.Set "p" self.DBConfig.Password
  { self with
    url := self.proto ++ "://" ++ host ++ "/db/" ++ self.DBConfig.Database ++ "/series?" ++
      params.Encode }

/-- The function `newCommon`, without the start of the consumer goroutine -/
def newCommon (proto : String) (dbConfig : InfluxDBConfig) : Errplane :=
  let ep : Errplane :=
    { proto := proto, url := "", Timeout := 1000000000, closed := false,
      timeout := 2000000000, runtimeStatsRunning := false, DBConfig := dbConfig }
  SetHttpHost ep dbConfig.Host

/-- The function `New` -/
def New (config : InfluxDBConfig) : Errplane :=
  newCommon "http" config

/-! ## The consumer loop: processMessages and flushPosts (api.go, lines 82-121) -/

/-- What the `select` of `processMessages` can receive: a batch on `msgChan`,
the tick of `time.After`, or the close signal on `closeChan` -/
inductive Event where
  | msg (x : WriteOperation)
  | timeout
  | close

/-- The effects of the consumer loop visible outside it: a call of `SendHttp`
with its argument, a line written to stderr, the acknowledgment
`closeChan <- true` -/
inductive Effect where
  | sendHttp (data : WriteOperation)
  | logError (text : String)
  | ack

/-- The outcome of a `SendHttp` call, given by the environment: it may depend on
everything that happened before and on the payload. `none` is success -/
abbrev Delivery := List Effect → WriteOperation → Option String

/-- The function `flushPosts`: the effects it adds to the trace `history` -/
def flushPosts (SendHttp : Delivery) (history : List Effect)
    (posts : List WriteOperation) : List Effect :=
  if posts.length = 0 then []
  else
    match mergeMetrics posts with
    | none => []
    | some httpPoint =>
      match SendHttp history httpPoint with
      | some err =>
        [ Effect.sendHttp httpPoint,
          Effect.logError ("Error while posting points to Errplane. Error: " ++ err ++ "\n") ]
      | none => [ Effect.sendHttp httpPoint ]

/-- The payloads of the delivery requests of a trace, in order -/
def requests : List Effect → List WriteOperation
  | [] => []
  | Effect.sendHttp data :: rest => data :: requests rest
  | _ :: rest => requests rest

/-- Program points of `processMessages`: waiting at the `select` (line 86), after
the append of line 88, before the `flushPosts` call of line 92, 94 or 96, before
the acknowledgment of line 97, before the reset of line 101, returned -/
inductive PC where
  | select
  | appended
  | flushSize
  | flushTimeout
  | flushClose
  | ack
  | reset
  | done
  deriving DecidableEq

/-- A configuration of the consumer loop: the program point, the local `posts`,
the events the `select` is going to receive, and the effects so far -/
structure Config where
  pc : PC
  posts : List WriteOperation
  input : List Event
  trace : List Effect

/-- The loop starts at the `select` with `posts = make([]*WriteOperation, 0)` -/
def Config.init (input : List Event) : Config :=
  { pc := PC.select, posts := [], input := input, trace := [] }

/-- One step of `processMessages`. At the `select` with no event left, and after
the return, the configuration stays as it is -/
def step (SendHttp : Delivery) (c : Config) : Config :=
  match c.pc with
  | PC.select =>
    match c.input with
    | [] => c
    | Event.msg x :: rest => { c with pc := PC.appended, posts := c.posts ++ [x], input := rest }
    | Event.timeout :: rest => { c with pc := PC.flushTimeout, input := rest }
    | Event.close :: rest => { c with pc := PC.flushClose, input := rest }
  | PC.appended =>
    if c.posts.length < 100 then { c with pc := PC.select }
    else { c with pc := PC.flushSize }
  | PC.flushSize =>
    { c with pc := PC.reset, trace := c.trace ++ flushPosts SendHttp c.trace c.posts }
  | PC.flushTimeout =>
    { c with pc := PC.reset, trace := c.trace ++ flushPosts SendHttp c.trace c.posts }
  | PC.flushClose =>
    { c with pc := PC.ack, trace := c.trace ++ flushPosts SendHttp c.trace c.posts }
  | PC.ack => { c with pc := PC.done, trace := c.trace ++ [Effect.ack] }
  | PC.reset => { c with pc := PC.select, posts := [] }
  | PC.done => c

/-- The configuration after `n` steps -/
def run (SendHttp : Delivery) : Nat → Config → Config
  | 0, c => c
  | n + 1, c => run SendHttp n (step SendHttp c)

/-- A delivery that always succeeds -/
def alwaysDelivered : Delivery := fun _ _ => none

/-- A delivery that always fails -/
def neverDelivered : Delivery := fun _ _ => some "connection refused"

/-- The bound on the pending buffer: at most 100 batches, at most 99 at the
`select` -/
def BufferBounded (c : Config) : Prop :=
  c.posts.length ≤ 100 ∧ (c.pc = PC.select → c.posts.length ≤ 99)

/-! # Properties -/

/-! ## Lemmas on the map and on the merge loops -/

theorem mapIndex_mapAssign (m : PointMap) (n k : String) (v : List JsonPoint) :
    mapIndex (mapAssign m n v) k = if k = n then v else mapIndex m k := by
  induction m with
  | nil =>
    by_cases h : k = n
    · simp [mapAssign, mapIndex, h]
    · have h2 : ¬ n = k := fun e => h e.symm
      simp [mapAssign, mapIndex, h, h2]
  | cons e rest ih =>
    obtain ⟨a, w⟩ := e
    by_cases h1 : a = n
    · by_cases h2 : k = n
      · simp [mapAssign, mapIndex, h1, h2]
      · have h3 : ¬ n = k := fun e => h2 e.symm
        simp [mapAssign, mapIndex, h1, h2, h3]
    · by_cases h2 : a = k
      · have h3 : ¬ k = n := fun e => h1 (h2.trans e)
        simp [mapAssign, mapIndex, h1, h2, h3]
      · simp [mapAssign, mapIndex, h1, h2, ih]

theorem mem_mapKeys_mapAssign (m : PointMap) (n k : String) (v : List JsonPoint) :
    k ∈ mapKeys (mapAssign m n v) ↔ k ∈ mapKeys m ∨ k = n := by
  induction m with
  | nil => simp [mapAssign, mapKeys]
  | cons e rest ih =>
    obtain ⟨a, w⟩ := e
    by_cases h1 : a = n
    · subst h1
      simp [mapAssign, mapKeys]
      tauto
    · simp only [mapKeys] at ih
      simp [mapAssign, mapKeys, h1, ih, or_assoc]

theorem nodup_mapKeys_mapAssign (m : PointMap) (n : String) (v : List JsonPoint)
    (h : (mapKeys m).Nodup) : (mapKeys (mapAssign m n v)).Nodup := by
  induction m with
  | nil => simp [mapAssign, mapKeys]
  | cons e rest ih =>
    obtain ⟨a, w⟩ := e
    by_cases h1 : a = n
    · simpa [mapAssign, mapKeys, h1] using h
    · have hk : mapKeys ((a, w) :: rest) = a :: mapKeys rest := rfl
      rw [hk, List.nodup_cons] at h
      have hk2 : mapKeys (mapAssign ((a, w) :: rest) n v) = a :: mapKeys (mapAssign rest n v) := by
        simp [mapAssign, mapKeys, h1]
      rw [hk2, List.nodup_cons]
      refine ⟨?_, ih h.2⟩
      rw [mem_mapKeys_mapAssign]
      rintro (h3 | h3)
      · exact h.1 h3
      · exact h1 h3

theorem mapIndex_of_mem (m : PointMap) (k : String) (v : List JsonPoint)
    (hnd : (mapKeys m).Nodup) (hmem : (k, v) ∈ m) : mapIndex m k = v := by
  induction m with
  | nil => simp at hmem
  | cons e rest ih =>
    obtain ⟨a, w⟩ := e
    have hk : mapKeys ((a, w) :: rest) = a :: mapKeys rest := rfl
    rw [hk, List.nodup_cons] at hnd
    rcases List.mem_cons.mp hmem with h | h
    · cases h
      simp [mapIndex]
    · have hne : ¬ a = k := by
        intro e
        apply hnd.1
        rw [e]
        exact List.mem_map.mpr ⟨(k, v), h, rfl⟩
      simp [mapIndex, hne, ih hnd.2 h]

theorem collectPoints_eq (operations : List WriteOperation) :
    collectPoints operations = (arrivals operations).foldl mergeStep [] := by
  unfold collectPoints arrivals
  generalize ([] : PointMap) = m
  induction operations generalizing m with
  | nil => rfl
  | cons op rest ih => simp [List.foldl_append, ih]

theorem emitMetrics_eq (m : PointMap) :
    emitMetrics m = m.map (fun entry => mergedEntry entry.1 entry.2) := by
  unfold emitMetrics
  suffices h : ∀ (acc : List JsonPoints),
      m.foldl (fun mergedMetrics entry => mergedMetrics ++ [mergedEntry entry.1 entry.2]) acc =
        acc ++ m.map (fun entry => mergedEntry entry.1 entry.2) by
    simpa using h []
  induction m with
  | nil => simp
  | cons e rest ih => intro acc; simp [ih]

theorem mapIndex_foldl (jps : List JsonPoints) (m : PointMap) (k : String) :
    mapIndex (jps.foldl mergeStep m) k =
      mapIndex m k ++ (jps.filter (fun jp => decide (jp.Name = k))).flatMap (fun jp => jp.Points) := by
  induction jps generalizing m with
  | nil => simp
  | cons jp rest ih =>
    rw [List.foldl_cons, ih, mergeStep, mapIndex_mapAssign]
    by_cases h : k = jp.Name
    · subst h
      simp [List.filter_cons]
    · have h2 : ¬ jp.Name = k := fun e => h e.symm
      simp [List.filter_cons, h, h2]

theorem mem_mapKeys_foldl (jps : List JsonPoints) (m : PointMap) (k : String) :
    k ∈ mapKeys (jps.foldl mergeStep m) ↔ k ∈ mapKeys m ∨ ∃ jp ∈ jps, jp.Name = k := by
  induction jps generalizing m with
  | nil => simp
  | cons jp rest ih =>
    rw [List.foldl_cons, ih, mergeStep, mem_mapKeys_mapAssign]
    simp only [List.mem_cons, exists_eq_or_imp, or_assoc]
    constructor
    · rintro (h | h | h)
      · exact Or.inl h
      · exact Or.inr (Or.inl h.symm)
      · exact Or.inr (Or.inr h)
    · rintro (h | h | h)
      · exact Or.inl h
      · exact Or.inr (Or.inl h.symm)
      · exact Or.inr (Or.inr h)

theorem nodup_mapKeys_foldl (jps : List JsonPoints) (m : PointMap)
    (h : (mapKeys m).Nodup) : (mapKeys (jps.foldl mergeStep m)).Nodup := by
  induction jps generalizing m with
  | nil => simpa using h
  | cons jp rest ih =>
    rw [List.foldl_cons]
    exact ih _ (nodup_mapKeys_mapAssign _ _ _ h)

/-- Names of the emitted entries are the keys of the map -/
theorem emitMetrics_names (m : PointMap) :
    (emitMetrics m).map (fun jp => jp.Name) = mapKeys m := by
  simp [emitMetrics_eq, mapKeys, List.map_map, Function.comp_def, mergedEntry]

theorem payloadWrites_mergeMetrics (operations : List WriteOperation) :
    payloadWrites (mergeMetrics operations) = emitMetrics (collectPoints operations) := by
  cases operations with
  | nil => simp [mergeMetrics, payloadWrites, collectPoints, emitMetrics]
  | cons op rest => simp [mergeMetrics, payloadWrites]

/-- All points stored in a map, entry after entry -/
theorem allPoints_emitMetrics (m : PointMap) :
    allPoints (emitMetrics m) = m.flatMap (fun e => e.2) := by
  rw [emitMetrics_eq]
  induction m with
  | nil => rfl
  | cons e rest ih =>
    simp only [allPoints, List.map_cons, List.flatMap_cons] at ih ⊢
    rw [ih]
    rfl

theorem perm_flatMap_mapAssign (m : PointMap) (n : String) (pts : List JsonPoint) :
    ((mapAssign m n (mapIndex m n ++ pts)).flatMap (fun e => e.2)).Perm
      (m.flatMap (fun e => e.2) ++ pts) := by
  induction m with
  | nil => simp [mapAssign, mapIndex]
  | cons e rest ih =>
    obtain ⟨a, w⟩ := e
    by_cases h : a = n
    · simp only [mapAssign, mapIndex, h, if_true, List.flatMap_cons, List.append_assoc]
      exact List.Perm.append_left w List.perm_append_comm
    · simp only [mapAssign, mapIndex, h, if_false, List.flatMap_cons, List.append_assoc]
      exact List.Perm.append_left w ih

theorem perm_flatMap_foldl (jps : List JsonPoints) (m : PointMap) :
    ((jps.foldl mergeStep m).flatMap (fun e => e.2)).Perm
      (m.flatMap (fun e => e.2) ++ allPoints jps) := by
  induction jps generalizing m with
  | nil => simp [allPoints]
  | cons jp rest ih =>
    rw [List.foldl_cons]
    refine (ih _).trans ?_
    have h1 := perm_flatMap_mapAssign m jp.Name jp.Points
    have h2 : allPoints (jp :: rest) = jp.Points ++ allPoints rest := by
      simp [allPoints]
    rw [h2, ← List.append_assoc]
    exact List.Perm.append_right _ h1

/-- The merged payload holds exactly the submitted points, each as often as it
was submitted -/
theorem allPoints_mergeMetrics_perm (operations : List WriteOperation) :
    (allPoints (payloadWrites (mergeMetrics operations))).Perm
      (allPoints (arrivals operations)) := by
  rw [payloadWrites_mergeMetrics, allPoints_emitMetrics, collectPoints_eq]
  simpa using perm_flatMap_foldl (arrivals operations) []

theorem pointCount_eq_length (sets : List JsonPoints) :
    pointCount sets = (allPoints sets).length := by
  induction sets with
  | nil => rfl
  | cons jp rest ih =>
    simp only [pointCount, allPoints, List.map_cons, List.sum_cons, List.flatMap_cons,
      List.length_append] at ih ⊢
    rw [ih]

theorem pointCount_perm {a b : List JsonPoints} (h : a.Perm b) :
    pointCount a = pointCount b := by
  unfold pointCount
  exact (h.map _).sum_eq

theorem mergeMetrics_eq_none_iff (operations : List WriteOperation) :
    mergeMetrics operations = none ↔ operations = [] := by
  cases operations with
  | nil => simp [mergeMetrics]
  | cons op rest => simp [mergeMetrics]

/-! ## The merge engine -/

theorem sampleMerged_perm :
    sampleMerged.Perm (payloadWrites (mergeMetrics sampleBatches)) := by
  have h : payloadWrites (mergeMetrics sampleBatches) =
      [ mergedEntry "cpu" [⟨0.5, "", 10, []⟩, ⟨0.75, "", 11, []⟩],
        mergedEntry "mem" [⟨64, "", 10, []⟩] ] := by
    rfl
  rw [h]
  exact List.Perm.swap _ _ _

/-- C1: whatever order the map is ranged over, the entries of the payload of
`mergeMetrics` (the nil payload of the empty input has none; every other input
gives a payload) have pairwise distinct names, a name occurs among them exactly
when some NamedPointSet of the input carries it, and the points of each entry
are the points of all input NamedPointSets of that name, concatenated in
arrival order -/
theorem mergeMetrics_groups_by_name (operations : List WriteOperation)
    (out : List JsonPoints)
    (hout : out.Perm (payloadWrites (mergeMetrics operations))) :
    (mergeMetrics operations = none ↔ operations = []) ∧
    (out.map (fun jp => jp.Name)).Nodup ∧
    (∀ n : String, n ∈ out.map (fun jp => jp.Name) ↔
      ∃ jp ∈ arrivals operations, jp.Name = n) ∧
    (∀ e ∈ out, e.Points = pointsNamed e.Name operations) := by
  have hnd : (mapKeys (collectPoints operations)).Nodup := by
    rw [collectPoints_eq]
    exact nodup_mapKeys_foldl _ _ (by simp [mapKeys])
  rw [payloadWrites_mergeMetrics] at hout
  have hnames : (out.map (fun jp => jp.Name)).Perm (mapKeys (collectPoints operations)) := by
    rw [← emitMetrics_names]
    exact hout.map _
  refine ⟨mergeMetrics_eq_none_iff operations, hnames.nodup_iff.mpr hnd, ?_, ?_⟩
  · intro n
    rw [hnames.mem_iff, collectPoints_eq, mem_mapKeys_foldl]
    simp [mapKeys]
  · intro e he
    have he2 : e ∈ emitMetrics (collectPoints operations) := hout.mem_iff.mp he
    rw [emitMetrics_eq, List.mem_map] at he2
    obtain ⟨⟨k, v⟩, hkv, rfl⟩ := he2
    have h := mapIndex_of_mem _ k v hnd hkv
    rw [collectPoints_eq, mapIndex_foldl] at h
    simpa [mergedEntry, pointsNamed, mapIndex] using h.symm

/-- C2: whatever order the map is ranged over, the payload of `mergeMetrics`
holds as many points as the input batches together; for the empty input the
result is nil and both counts are 0 -/
theorem mergeMetrics_count_lossless (operations : List WriteOperation)
    (out : List JsonPoints)
    (hout : out.Perm (payloadWrites (mergeMetrics operations))) :
    pointCount out = pointCount (arrivals operations) ∧
    mergeMetrics [] = none ∧ pointCount (payloadWrites (mergeMetrics [])) = 0 ∧
    pointCount (arrivals []) = 0 := by
  refine ⟨?_, rfl, rfl, rfl⟩
  rw [pointCount_perm hout, pointCount_eq_length, pointCount_eq_length]
  exact (allPoints_mergeMetrics_perm operations).length_eq

/-- C1 at `sampleBatches`, the map ranged over with `mem` before `cpu` -/
theorem mergeMetrics_groups_by_name_witness :
    sampleMerged.Perm (payloadWrites (mergeMetrics sampleBatches)) ∧
    (sampleMerged.map (fun jp => jp.Name)).Nodup ∧
    (mergedEntry "cpu" [⟨0.5, "", 10, []⟩, ⟨0.75, "", 11, []⟩]).Points =
      pointsNamed "cpu" sampleBatches :=
  ⟨sampleMerged_perm,
    (mergeMetrics_groups_by_name sampleBatches sampleMerged sampleMerged_perm).2.1,
    (mergeMetrics_groups_by_name sampleBatches sampleMerged sampleMerged_perm).2.2.2
      (mergedEntry "cpu" [⟨0.5, "", 10, []⟩, ⟨0.75, "", 11, []⟩])
      (List.mem_cons_of_mem _ (List.mem_singleton.mpr rfl))⟩

/-- C2 at `sampleBatches`: three points in, three points out -/
theorem mergeMetrics_count_lossless_witness :
    sampleMerged.Perm (payloadWrites (mergeMetrics sampleBatches)) ∧
    pointCount sampleMerged = pointCount (arrivals sampleBatches) :=
  ⟨sampleMerged_perm,
    (mergeMetrics_count_lossless sampleBatches sampleMerged sampleMerged_perm).1⟩

/-! ## Metric names -/

theorem metricChar_ascii (c : Char) (h : metricChar c = true) : c.toNat ≤ 127 := by
  simp only [metricChar, Bool.or_eq_true, Bool.and_eq_true, decide_eq_true_eq] at h
  omega

theorem utf8Size_of_ascii (c : Char) (h : c.toNat ≤ 127) : c.utf8Size = 1 := by
  unfold Char.utf8Size
  have h2 : c.val ≤ 127 := by
    rw [UInt32.le_def]
    exact h
  simp [h2]

theorem length_le_utf8ByteSize_go (cs : List Char) :
    cs.length ≤ String.utf8ByteSize.go cs := by
  induction cs with
  | nil => simp [String.utf8ByteSize.go]
  | cons c rest ih =>
    have := Char.utf8Size_pos c
    simp only [String.utf8ByteSize.go, List.length_cons]
    omega

theorem utf8ByteSize_go_of_metric (cs : List Char) (h : cs.all metricChar = true) :
    String.utf8ByteSize.go cs = cs.length := by
  induction cs with
  | nil => simp [String.utf8ByteSize.go]
  | cons c rest ih =>
    simp only [List.all_cons, Bool.and_eq_true] at h
    simp only [String.utf8ByteSize.go, List.length_cons, ih h.2,
      utf8Size_of_ascii c (metricChar_ascii c h.1)]

theorem length_le_utf8ByteSize (name : String) : name.length ≤ name.utf8ByteSize := by
  obtain ⟨cs⟩ := name
  exact length_le_utf8ByteSize_go cs

theorem utf8ByteSize_of_metric (name : String) (h : METRIC_REGEX_MatchString name = true) :
    name.utf8ByteSize = name.length := by
  obtain ⟨cs⟩ := name
  exact utf8ByteSize_go_of_metric cs h

theorem verifyMetricName_eq_none_iff (name : String) :
    verifyMetricName name = none ↔
      name.length ≤ 255 ∧ ∀ c ∈ name.data, metricChar c = true := by
  have hge := length_le_utf8ByteSize name
  have heq := utf8ByteSize_of_metric name
  have hall : METRIC_REGEX_MatchString name = true ↔ ∀ c ∈ name.data, metricChar c = true := by
    unfold METRIC_REGEX_MatchString
    exact List.all_eq_true
  unfold verifyMetricName
  split_ifs with h1 h2
  · constructor
    · intro h; cases h
    · rintro ⟨h3, h4⟩
      have := heq (hall.mpr h4)
      omega
  · constructor
    · intro h; cases h
    · rintro ⟨_, h4⟩
      rw [hall.mpr h4] at h2
      cases h2
  · have h3 : METRIC_REGEX_MatchString name = true := by
      cases hm : METRIC_REGEX_MatchString name
      · rw [hm] at h2; exact absurd rfl h2
      · rfl
    constructor
    · intro _
      have := heq h3
      exact ⟨by omega, hall.mp h3⟩
    · intro _; rfl

theorem metricChar_iff_allowed (c : Char) : metricChar c = true ↔ c ∈ allowedChars := by
  constructor
  · intro h
    simp only [metricChar, Bool.or_eq_true, Bool.and_eq_true, decide_eq_true_eq] at h
    have hc : c = Char.ofNat c.toNat := (Char.ofNat_toNat c).symm
    generalize c.toNat = n at h hc
    subst hc
    have hn : n ≤ 122 := by omega
    have hn2 : 46 ≤ n := by omega
    interval_cases n <;> first | (exfalso; omega) | decide
  · intro h
    simp only [allowedChars, List.mem_cons, List.mem_singleton, List.not_mem_nil, or_false] at h
    rcases h with h | h | h | h | h | h | h | h | h | h | h | h | h | h | h | h | h | h | h | h |
      h | h | h | h | h | h | h | h | h | h | h | h | h | h | h | h | h | h | h | h | h | h |
      h | h | h | h | h | h | h | h | h | h | h | h | h | h | h | h | h | h | h | h | h | h <;>
    (subst h; decide)

/-- C3: `verifyMetricName` returns no error exactly for the names of at most 255
characters that consist only of characters of `[A-Za-z0-9._]`, and an error for
every name that is longer or holds another character; 255 allowed characters
are accepted, 256 are rejected -/
theorem verifyMetricName_accepts_iff_valid :
    (∀ name : String, verifyMetricName name = none ↔
      (name.length ≤ 255 ∧ ∀ c ∈ name.data, c ∈ allowedChars)) ∧
    (∀ name : String, (∃ err, verifyMetricName name = some err) ↔
      (255 < name.length ∨ ∃ c ∈ name.data, c ∉ allowedChars)) ∧
    verifyMetricName (String.mk (List.replicate 255 'a')) = none ∧
    (∃ err, verifyMetricName (String.mk (List.replicate 256 'a')) = some err) := by
  have h1 : ∀ name : String, verifyMetricName name = none ↔
      (name.length ≤ 255 ∧ ∀ c ∈ name.data, c ∈ allowedChars) := by
    intro name
    rw [verifyMetricName_eq_none_iff]
    simp only [metricChar_iff_allowed]
  have h2 : ∀ name : String, (∃ err, verifyMetricName name = some err) ↔
      (255 < name.length ∨ ∃ c ∈ name.data, c ∉ allowedChars) := by
    intro name
    have h3 : (∃ err, verifyMetricName name = some err) ↔ ¬ verifyMetricName name = none := by
      cases verifyMetricName name <;> simp
    rw [h3, h1]
    constructor
    · intro h
      by_contra hc
      push_neg at hc
      exact h ⟨hc.1, hc.2⟩
    · rintro (h | ⟨c, hc, hn⟩) ⟨h3, h4⟩
      · omega
      · exact hn (h4 c hc)
  have ha : ('a' : Char) ∈ allowedChars := by decide
  refine ⟨h1, h2, ?_, ?_⟩
  · rw [h1]
    refine ⟨?_, ?_⟩
    · show (List.replicate 255 'a').length ≤ 255
      rw [List.length_replicate]
    intro c hc
    rw [List.eq_of_mem_replicate hc]
    exact ha
  · rw [h2]
    left
    show 255 < (List.replicate 256 'a').length
    rw [List.length_replicate]
    exact Nat.lt_succ_self 255

/-- C4, as the code has it: the empty metric name passes `verifyMetricName`, and
`Report` with the empty name returns no error and submits exactly one batch,
holding one NamedPointSet with the empty name and the one reported point -/
theorem report_empty_name_accepted (value : Float) (timestamp : Time) (context : String)
    (dimensions : List (String × String)) :
    verifyMetricName "" = none ∧
    Report "" value timestamp context dimensions =
      (none, [{ Writes := [{ Name := "", Columns := ["value", "time", "dimensions"],
                             Points := [{ Value := value, Context := context,
                                          Time := timestamp.Unix,
                                          Dimensions := dimensions }] }] }]) := by
  constructor <;> rfl

/-- C4 as stated fails: `verifyMetricName` returns no error for the empty name,
and `Report` with the empty name returns no error and submits a batch -/
theorem empty_name_not_rejected :
    ¬ ((∃ err, verifyMetricName "" = some err) ∧
       (∃ err, (Report "" 1 ⟨0, 0⟩ "" []).1 = some err) ∧
       (Report "" 1 ⟨0, 0⟩ "" []).2 = []) := by
  rintro ⟨⟨err, h⟩, _⟩
  have h2 : verifyMetricName "" = none := rfl
  rw [h2] at h
  cases h

/-! ## Report -/

/-- C7: `Report` with a name that fails validation returns the validation error
and sends nothing on the ingestion channel; with a valid name it returns no
error and sends exactly one batch of exactly one NamedPointSet, named `metric`,
with the columns `value`, `time`, `dimensions` and the one point of the call,
its time in whole epoch seconds. A flush of the batch of
`Report("cpu.load", 0.73, now, "", {"host":"a"})` issues one request whose
payload is one NamedPointSet `cpu.load` holding that one point -/
theorem report_submits_one_point_batch (metric : String) (value : Float)
    (timestamp : Time) (context : String) (dimensions : List (String × String))
    (SendHttp : Delivery) (now : Time) :
    (∀ err, verifyMetricName metric = some err →
      Report metric value timestamp context dimensions = (some err, [])) ∧
    (verifyMetricName metric = none →
      Report metric value timestamp context dimensions =
        (none, [{ Writes := [{ Name := metric, Columns := ["value", "time", "dimensions"],
                               Points := [{ Value := value, Context := context,
                                            Time := timestamp.Unix,
                                            Dimensions := dimensions }] }] }])) ∧
    (∃ data : WriteOperation,
      Report "cpu.load" 0.73 now "" [("host", "a")] = (none, [data]) ∧
      mergeMetrics [data] =
        some { Writes := [{ Name := "cpu.load", Columns := ["value", "time", "dimensions"],
                            Points := [{ Value := 0.73, Context := "", Time := now.Unix,
                                         Dimensions := [("host", "a")] }] }] } ∧
      requests (flushPosts SendHttp [] [data]) =
        [{ Writes := [{ Name := "cpu.load", Columns := ["value", "time", "dimensions"],
                        Points := [{ Value := 0.73, Context := "", Time := now.Unix,
                                     Dimensions := [("host", "a")] }] }] }]) := by
  refine ⟨?_, ?_, ?_⟩
  · intro err h
    simp [Report, sendCommon, h]
  · intro h
    simp [Report, sendCommon, h]
  · refine ⟨_, rfl, rfl, ?_⟩
    have hm : mergeMetrics
        [({ Writes := [{ Name := "cpu.load", Columns := ["value", "time", "dimensions"],
                         Points := [{ Value := 0.73, Context := "", Time := now.Unix,
                                      Dimensions := [("host", "a")] }] }] } : WriteOperation)] =
        some { Writes := [{ Name := "cpu.load", Columns := ["value", "time", "dimensions"],
                            Points := [{ Value := 0.73, Context := "", Time := now.Unix,
                                         Dimensions := [("host", "a")] }] }] } := rfl
    simp only [flushPosts, hm]
    cases SendHttp [] _ <;> simp [requests]

/-- C7 at a valid name: `Report("cpu.load", ...)` sends its one-point batch -/
theorem report_submits_one_point_batch_witness :
    verifyMetricName "cpu.load" = none ∧
    Report "cpu.load" 0.73 ⟨1700000000, 5⟩ "" [("host", "a")] =
      (none, [{ Writes := [{ Name := "cpu.load", Columns := ["value", "time", "dimensions"],
                             Points := [{ Value := 0.73, Context := "", Time := 1700000000,
                                          Dimensions := [("host", "a")] }] }] }]) :=
  ⟨rfl, (report_submits_one_point_batch "cpu.load" 0.73 ⟨1700000000, 5⟩ ""
    [("host", "a")] alwaysDelivered ⟨0, 0⟩).2.1 rfl⟩

/-! ## Delivery status -/

/-- C6: a transport error is returned as it is; without one, the result for a
response is nil exactly when the status code is in 200..299, and otherwise an
error, which for a readable body is the text `Server returned (<code>): <body>` -/
theorem responseToError_status_mapping :
    (∀ (response : Option Response) (e : String) (closeResponse : Bool),
      responseToError response (some e) closeResponse = .ok (some e)) ∧
    (∀ (r : Response) (closeResponse : Bool),
      responseToError (some r) none closeResponse = .ok none ↔
        (200 ≤ r.StatusCode ∧ r.StatusCode ≤ 299)) ∧
    (∀ (r : Response) (closeResponse : Bool), ¬ (200 ≤ r.StatusCode ∧ r.StatusCode ≤ 299) →
      ∃ e, responseToError (some r) none closeResponse = .ok (some e)) ∧
    (∀ (code : Int) (body : String) (closeResponse : Bool), ¬ (200 ≤ code ∧ code ≤ 299) →
      responseToError (some ⟨code, .ok body⟩) none closeResponse =
        .ok (some ("Server returned (" ++ toString code ++ "): " ++ body))) ∧
    responseToError (some ⟨204, .ok ""⟩) none true = .ok none ∧
    responseToError (some ⟨500, .ok "boom"⟩) none true =
      .ok (some "Server returned (500): boom") := by
  refine ⟨?_, ?_, ?_, ?_, rfl, rfl⟩
  · intro response e c
    rfl
  · intro r c
    by_cases h : r.StatusCode ≥ 200 ∧ r.StatusCode < 300
    · have h2 : 200 ≤ r.StatusCode ∧ r.StatusCode ≤ 299 := ⟨h.1, by omega⟩
      simp [responseToError, h, h2]
    · have h2 : ¬ (200 ≤ r.StatusCode ∧ r.StatusCode ≤ 299) := by
        rintro ⟨h3, h4⟩
        exact h ⟨h3, by omega⟩
      simp only [responseToError, if_neg h, h2, iff_false]
      cases r.Body <;> simp
  · intro r c hr
    have h : ¬ (r.StatusCode ≥ 200 ∧ r.StatusCode < 300) := by
      rintro ⟨h3, h4⟩
      exact hr ⟨h3, by omega⟩
    simp only [responseToError, if_neg h]
    cases r.Body <;> simp
  · intro code body c hr
    have h : ¬ (code ≥ 200 ∧ code < 300) := by
      rintro ⟨h3, h4⟩
      exact hr ⟨h3, by omega⟩
    simp only [responseToError, if_neg h]

/-- C6 at status 404 with body `missing` -/
theorem responseToError_status_mapping_witness :
    ¬ (200 ≤ (404 : Int) ∧ (404 : Int) ≤ 299) ∧
    responseToError (some ⟨404, .ok "missing"⟩) none true =
      .ok (some ("Server returned (" ++ toString (404 : Int) ++ "): " ++ "missing")) :=
  ⟨by decide, responseToError_status_mapping.2.2.2.1 404 "missing" true (by decide)⟩

/-! ## The target URL -/

theorem flatMap_escapeChar_of_unreserved (cs : List Char)
    (h : cs.all unreserved = true) : cs.flatMap escapeChar = cs := by
  induction cs with
  | nil => rfl
  | cons c rest ih =>
    simp only [List.all_cons, Bool.and_eq_true] at h
    simp [List.flatMap_cons, escapeChar, h.1, ih h.2]

theorem QueryEscape_of_unreserved (s : String) (h : s.data.all unreserved = true) :
    QueryEscape s = s := by
  obtain ⟨cs⟩ := s
  simp only [QueryEscape]
  rw [flatMap_escapeChar_of_unreserved cs h]

theorem encode_u_p (username password : String) :
    Values.Encode ((Values.Set [] "u" username).Set "p" password) =
      QueryEscape "p" ++ "=" ++ QueryEscape password ++ "&" ++
        (QueryEscape "u" ++ "=" ++ QueryEscape username) := by
  rfl

/-- C8, as the code has it: for a username and a password of characters that
need no escaping, the URL stored by `SetHttpHost`, and so by `newCommon` and
`New`, is `<scheme>://<host>/db/<database>/series?p=<password>&u=<username>`:
the query parameters are in the order of their keys, `p` before `u` -/
theorem setHttpHost_url (self : Errplane) (host : String) (config : InfluxDBConfig)
    (proto : String)
    (hu : self.DBConfig.Username.data.all unreserved = true)
    (hp : self.DBConfig.Password.data.all unreserved = true)
    (hcu : config.Username.data.all unreserved = true)
    (hcp : config.Password.data.all unreserved = true) :
    (SetHttpHost self host).url =
      self.proto ++ "://" ++ host ++ "/db/" ++ self.DBConfig.Database ++ "/series?p=" ++
        self.DBConfig.Password ++ "&u=" ++ self.DBConfig.Username ∧
    (newCommon proto config).url =
      proto ++ "://" ++ config.Host ++ "/db/" ++ config.Database ++ "/series?p=" ++
        config.Password ++ "&u=" ++ config.Username ∧
    (New config).url =
      "http://" ++ config.Host ++ "/db/" ++ config.Database ++ "/series?p=" ++
        config.Password ++ "&u=" ++ config.Username := by
  have hpk : QueryEscape "p" = "p" := rfl
  have huk : QueryEscape "u" = "u" := rfl
  have key : ∀ (s : Errplane) (h : String),
      s.DBConfig.Username.data.all unreserved = true →
      s.DBConfig.Password.data.all unreserved = true →
      (SetHttpHost s h).url =
        s.proto ++ "://" ++ h ++ "/db/" ++ s.DBConfig.Database ++ "/series?p=" ++
          s.DBConfig.Password ++ "&u=" ++ s.DBConfig.Username := by
    intro s h h1 h2
    simp only [SetHttpHost, encode_u_p, hpk, huk, QueryEscape_of_unreserved _ h1,
      QueryEscape_of_unreserved _ h2]
    apply String.ext
    simp [String.data_append]
  refine ⟨key self host hu hp, ?_, ?_⟩
  · exact key _ _ hcu hcp
  · have h : (newCommon "http" config).url =
        "http" ++ "://" ++ config.Host ++ "/db/" ++ config.Database ++ "/series?p=" ++
          config.Password ++ "&u=" ++ config.Username := key _ _ hcu hcp
    show (newCommon "http" config).url = _
    rw [h]
    apply String.ext
    simp [String.data_append]

/-- C8 as stated fails: with user `root` and password `secret` the URL does not
have `u` before `p` -/
theorem new_url_not_u_first :
    (New ⟨"localhost:8086", "metrics", "root", "secret"⟩).url ≠
      "http://localhost:8086/db/metrics/series?u=root&p=secret" := by
  decide

/-- C8 at the configuration of the example program, with password `secret` -/
theorem setHttpHost_url_witness :
    ("root" : String).data.all unreserved = true ∧
    ("secret" : String).data.all unreserved = true ∧
    (New ⟨"localhost:8086", "metrics", "root", "secret"⟩).url =
      "http://localhost:8086/db/metrics/series?p=secret&u=root" :=
  ⟨by decide, by decide,
    (setHttpHost_url (New ⟨"localhost:8086", "metrics", "root", "secret"⟩) "localhost:8086"
      ⟨"localhost:8086", "metrics", "root", "secret"⟩ "http"
      (by decide) (by decide) (by decide) (by decide)).2.2⟩

/-! ## The consumer loop -/

theorem run_add (SendHttp : Delivery) (m n : Nat) (c : Config) :
    run SendHttp (m + n) c = run SendHttp n (run SendHttp m c) := by
  induction m generalizing c with
  | zero => simp [run]
  | succ m ih =>
    rw [Nat.succ_add]
    exact ih (step SendHttp c)

theorem run_done (SendHttp : Delivery) (k : Nat) (posts : List WriteOperation)
    (input : List Event) (trace : List Effect) :
    run SendHttp k { pc := PC.done, posts := posts, input := input, trace := trace } =
      { pc := PC.done, posts := posts, input := input, trace := trace } := by
  induction k with
  | zero => rfl
  | succ k ih => exact ih

/-- Below the size threshold every arriving batch is appended and the loop is
back at the `select` after two steps -/
theorem run_msgs (SendHttp : Delivery) (msgs posts : List WriteOperation)
    (rest : List Event) (trace : List Effect) (h : posts.length + msgs.length < 100) :
    run SendHttp (2 * msgs.length)
        { pc := PC.select, posts := posts, input := msgs.map Event.msg ++ rest, trace := trace } =
      { pc := PC.select, posts := posts ++ msgs, input := rest, trace := trace } := by
  induction msgs generalizing posts with
  | nil => simp [run]
  | cons x xs ih =>
    simp only [List.length_cons] at h
    have hlen : (posts ++ [x]).length < 100 := by
      rw [List.length_append, List.length_singleton]
      omega
    have h2 : 2 * (x :: xs).length = 2 + 2 * xs.length := by
      rw [List.length_cons]
      omega
    rw [h2, run_add]
    have h3 : run SendHttp 2
        { pc := PC.select, posts := posts, input := (x :: xs).map Event.msg ++ rest,
          trace := trace } =
        { pc := PC.select, posts := posts ++ [x], input := xs.map Event.msg ++ rest,
          trace := trace } := by
      have h99 : posts.length < 99 := by omega
      simp [run, step, h99]
    have hlen2 : (posts ++ [x]).length + xs.length < 100 := by
      rw [List.length_append, List.length_singleton]
      omega
    rw [h3, ih (posts ++ [x]) hlen2]
    simp

theorem requests_append (a b : List Effect) : requests (a ++ b) = requests a ++ requests b := by
  induction a with
  | nil => rfl
  | cons e rest ih =>
    cases e <;> simp [requests, ih]

/-- The effects of a flush: nothing for an empty buffer, otherwise the one
`SendHttp` call, followed by a line on stderr when it failed -/
theorem flushPosts_eq (SendHttp : Delivery) (history : List Effect)
    (posts : List WriteOperation) :
    flushPosts SendHttp history posts =
      match mergeMetrics posts with
      | none => []
      | some payload =>
        Effect.sendHttp payload ::
          (match SendHttp history payload with
           | none => []
           | some err =>
             [Effect.logError ("Error while posting points to Errplane. Error: " ++ err ++ "\n")]) := by
  cases posts with
  | nil => rfl
  | cons b bs =>
    simp only [flushPosts, mergeMetrics, List.length_cons, Nat.succ_ne_zero, if_false]
    cases SendHttp history _ <;> rfl

theorem requests_flushPosts (SendHttp : Delivery) (history : List Effect)
    (posts : List WriteOperation) :
    requests (flushPosts SendHttp history posts) =
      match mergeMetrics posts with
      | none => []
      | some payload => [payload] := by
  rw [flushPosts_eq]
  cases mergeMetrics posts with
  | none => rfl
  | some payload =>
    cases h : SendHttp history payload <;> simp [requests, h]

theorem ack_not_mem_flushPosts (SendHttp : Delivery) (history : List Effect)
    (posts : List WriteOperation) : Effect.ack ∉ flushPosts SendHttp history posts := by
  rw [flushPosts_eq]
  cases mergeMetrics posts with
  | none => simp
  | some payload =>
    cases h : SendHttp history payload <;> simp [h]

/-- C10: `flushPosts` on an empty pending list has no effect at all, `mergeMetrics`
returns nil exactly for the empty input, and `flushPosts` on a non-empty list
makes exactly one `SendHttp` call, with `mergeMetrics` of the list as payload;
when the call fails the only further effect is one line on stderr -/
theorem flushPosts_one_request (SendHttp : Delivery) (history : List Effect)
    (posts : List WriteOperation) (b : WriteOperation) (bs : List WriteOperation) :
    flushPosts SendHttp history [] = [] ∧
    (mergeMetrics posts = none ↔ posts = []) ∧
    (∃ payload, mergeMetrics (b :: bs) = some payload ∧
      requests (flushPosts SendHttp history (b :: bs)) = [payload] ∧
      flushPosts SendHttp history (b :: bs) =
        Effect.sendHttp payload ::
          (match SendHttp history payload with
           | none => []
           | some err =>
             [Effect.logError
               ("Error while posting points to Errplane. Error: " ++ err ++ "\n")])) := by
  refine ⟨rfl, mergeMetrics_eq_none_iff posts, ?_⟩
  have h1 := flushPosts_eq SendHttp history (b :: bs)
  have h2 := requests_flushPosts SendHttp history (b :: bs)
  cases hm : mergeMetrics (b :: bs) with
  | none => simp [mergeMetrics] at hm
  | some payload =>
    rw [hm] at h1 h2
    exact ⟨payload, rfl, h2, h1⟩

/-- C5: started with an empty buffer, after fewer than 100 batches and the close
signal the loop has, from step `2 N + 3` on and whatever events are still
waiting, returned; its trace is the effects of one `flushPosts` of all the
batches followed by the acknowledgment, the flush being complete one step before
the acknowledgment is sent. The trace holds one request, with `mergeMetrics` of
the batches as payload, which holds exactly the submitted points; for no batch
it holds no request -/
theorem shutdown_drains (SendHttp : Delivery) (batches : List WriteOperation)
    (rest : List Event) (k : Nat) (hN : batches.length < 100) :
    run SendHttp (2 * batches.length + 3 + k)
        (Config.init (batches.map Event.msg ++ Event.close :: rest)) =
      { pc := PC.done, posts := batches, input := rest,
        trace := flushPosts SendHttp [] batches ++ [Effect.ack] } ∧
    run SendHttp (2 * batches.length + 2)
        (Config.init (batches.map Event.msg ++ Event.close :: rest)) =
      { pc := PC.ack, posts := batches, input := rest,
        trace := flushPosts SendHttp [] batches } ∧
    Effect.ack ∉ flushPosts SendHttp [] batches ∧
    requests (flushPosts SendHttp [] batches ++ [Effect.ack]) =
      (match mergeMetrics batches with
       | none => []
       | some payload => [payload]) ∧
    (mergeMetrics batches = none ↔ batches = []) ∧
    (allPoints (payloadWrites (mergeMetrics batches))).Perm (allPoints (arrivals batches)) := by
  have hm := run_msgs SendHttp batches [] (Event.close :: rest) [] (by simpa using hN)
  simp only [List.nil_append] at hm
  have h2 : run SendHttp (2 * batches.length + 2)
      (Config.init (batches.map Event.msg ++ Event.close :: rest)) =
      { pc := PC.ack, posts := batches, input := rest,
        trace := flushPosts SendHttp [] batches } := by
    rw [run_add, Config.init, hm]
    simp [run, step]
  refine ⟨?_, h2, ack_not_mem_flushPosts _ _ _, ?_, mergeMetrics_eq_none_iff _,
    allPoints_mergeMetrics_perm _⟩
  · have h3 : 2 * batches.length + 3 + k = (2 * batches.length + 2) + (1 + k) := by omega
    rw [h3, run_add, h2, run_add]
    have h4 : run SendHttp 1
        { pc := PC.ack, posts := batches, input := rest,
          trace := flushPosts SendHttp [] batches } =
        { pc := PC.done, posts := batches, input := rest,
          trace := flushPosts SendHttp [] batches ++ [Effect.ack] } := by
      simp [run, step]
    rw [h4, run_done]
  · rw [requests_append, requests_flushPosts]
    cases mergeMetrics batches <;> simp [requests]

theorem step_bounded (SendHttp : Delivery) (c : Config) (h : BufferBounded c) :
    BufferBounded (step SendHttp c) := by
  obtain ⟨pc, posts, input, trace⟩ := c
  obtain ⟨h1, h2⟩ := h
  simp only at h1 h2
  cases pc with
  | select =>
    have h3 := h2 rfl
    cases input with
    | nil => exact ⟨h1, h2⟩
    | cons ev rest =>
      cases ev with
      | msg x =>
        refine ⟨?_, ?_⟩
        · show (posts ++ [x]).length ≤ 100
          rw [List.length_append, List.length_singleton]
          omega
        · intro hpc
          cases hpc
      | timeout => exact ⟨h1, fun hpc => by cases hpc⟩
      | close => exact ⟨h1, fun hpc => by cases hpc⟩
  | appended =>
    by_cases hlt : posts.length < 100
    · simp only [step, hlt, if_true]
      exact ⟨h1, fun _ => by show posts.length ≤ 99; omega⟩
    · simp only [step, hlt, if_false]
      exact ⟨h1, fun hpc => by cases hpc⟩
  | flushSize => exact ⟨h1, fun hpc => by cases hpc⟩
  | flushTimeout => exact ⟨h1, fun hpc => by cases hpc⟩
  | flushClose => exact ⟨h1, fun hpc => by cases hpc⟩
  | ack => exact ⟨h1, fun hpc => by cases hpc⟩
  | reset => exact ⟨by simp [step], fun _ => by simp [step]⟩
  | done => exact ⟨h1, fun hpc => by cases hpc⟩

theorem run_bounded (SendHttp : Delivery) (n : Nat) (c : Config) (h : BufferBounded c) :
    BufferBounded (run SendHttp n c) := by
  induction n generalizing c with
  | zero => exact h
  | succ n ih => exact ih _ (step_bounded SendHttp c h)

/-- The loop at its `select` with 99 batches pending: the arrival of one more
batch is followed, with no further event taken, by the append, the size test,
one `flushPosts` of the 100 batches and the reset -/
theorem run_hundredth (SendHttp : Delivery) (posts : List WriteOperation)
    (x : WriteOperation) (rest : List Event) (trace : List Effect)
    (h99 : posts.length = 99) :
    run SendHttp 1
        { pc := PC.select, posts := posts, input := Event.msg x :: rest, trace := trace } =
      { pc := PC.appended, posts := posts ++ [x], input := rest, trace := trace } ∧
    run SendHttp 2
        { pc := PC.select, posts := posts, input := Event.msg x :: rest, trace := trace } =
      { pc := PC.flushSize, posts := posts ++ [x], input := rest, trace := trace } ∧
    run SendHttp 3
        { pc := PC.select, posts := posts, input := Event.msg x :: rest, trace := trace } =
      { pc := PC.reset, posts := posts ++ [x], input := rest,
        trace := trace ++ flushPosts SendHttp trace (posts ++ [x]) } ∧
    run SendHttp 4
        { pc := PC.select, posts := posts, input := Event.msg x :: rest, trace := trace } =
      { pc := PC.select, posts := [], input := rest,
        trace := trace ++ flushPosts SendHttp trace (posts ++ [x]) } := by
  have hnlt : ¬ (posts.length + 1 < 100) := by omega
  refine ⟨?_, ?_, ?_, ?_⟩
  · simp [run, step]
  · simp [run, step, hnlt]
  · simp [run, step, hnlt]
  · simp [run, step, hnlt]

/-- C9: started with an empty buffer, after any number of steps on any sequence
of events the pending buffer holds at most 100 batches, and at most 99 when the
loop is at its `select`. Started with an empty buffer, 99 arriving batches are
all kept and nothing is flushed; the arrival of the 100th is followed, with no
further event taken, by exactly one flush, of precisely those 100 batches, which
issues one request, and by the reset, so that the loop is back at its `select`
with an empty buffer before a 101st batch is taken. The same holds at every
`select` with 99 batches pending. Started with an empty buffer, fewer than 100
batches followed by a timeout are flushed once and the buffer is empty at the
next `select`; and after every size- or timeout-triggered flush the buffer is
empty at the next `select`, whatever the delivery returned -/
theorem size_trigger_invariant (SendHttp : Delivery) (input : List Event) (n : Nat)
    (batches : List WriteOperation) (pending : List WriteOperation)
    (posts : List WriteOperation) (x : WriteOperation) (rest : List Event)
    (trace : List Effect) (c : Config)
    (hb : batches.length = 99) (hp : pending.length < 100)
    (h99 : posts.length = 99) (hflush : c.pc = PC.flushSize ∨ c.pc = PC.flushTimeout) :
    ((run SendHttp n (Config.init input)).posts.length ≤ 100 ∧
      ((run SendHttp n (Config.init input)).pc = PC.select →
        (run SendHttp n (Config.init input)).posts.length ≤ 99)) ∧
    (run SendHttp 198 (Config.init (batches.map Event.msg ++ Event.msg x :: rest)) =
      { pc := PC.select, posts := batches, input := Event.msg x :: rest, trace := [] } ∧
     run SendHttp 199 (Config.init (batches.map Event.msg ++ Event.msg x :: rest)) =
      { pc := PC.appended, posts := batches ++ [x], input := rest, trace := [] } ∧
     run SendHttp 200 (Config.init (batches.map Event.msg ++ Event.msg x :: rest)) =
      { pc := PC.flushSize, posts := batches ++ [x], input := rest, trace := [] } ∧
     run SendHttp 201 (Config.init (batches.map Event.msg ++ Event.msg x :: rest)) =
      { pc := PC.reset, posts := batches ++ [x], input := rest,
        trace := flushPosts SendHttp [] (batches ++ [x]) } ∧
     run SendHttp 202 (Config.init (batches.map Event.msg ++ Event.msg x :: rest)) =
      { pc := PC.select, posts := [], input := rest,
        trace := flushPosts SendHttp [] (batches ++ [x]) } ∧
     (batches ++ [x]).length = 100 ∧
     ∃ payload, mergeMetrics (batches ++ [x]) = some payload ∧
       requests (flushPosts SendHttp [] (batches ++ [x])) = [payload]) ∧
    (run SendHttp 1
        { pc := PC.select, posts := posts, input := Event.msg x :: rest, trace := trace } =
      { pc := PC.appended, posts := posts ++ [x], input := rest, trace := trace } ∧
     run SendHttp 2
        { pc := PC.select, posts := posts, input := Event.msg x :: rest, trace := trace } =
      { pc := PC.flushSize, posts := posts ++ [x], input := rest, trace := trace } ∧
     run SendHttp 3
        { pc := PC.select, posts := posts, input := Event.msg x :: rest, trace := trace } =
      { pc := PC.reset, posts := posts ++ [x], input := rest,
        trace := trace ++ flushPosts SendHttp trace (posts ++ [x]) } ∧
     run SendHttp 4
        { pc := PC.select, posts := posts, input := Event.msg x :: rest, trace := trace } =
      { pc := PC.select, posts := [], input := rest,
        trace := trace ++ flushPosts SendHttp trace (posts ++ [x]) } ∧
     (posts ++ [x]).length = 100 ∧
     ∃ payload, mergeMetrics (posts ++ [x]) = some payload ∧
       requests (flushPosts SendHttp trace (posts ++ [x])) = [payload]) ∧
    (run SendHttp (2 * pending.length)
        (Config.init (pending.map Event.msg ++ Event.timeout :: rest)) =
      { pc := PC.select, posts := pending, input := Event.timeout :: rest, trace := [] } ∧
     run SendHttp (2 * pending.length + 3)
        (Config.init (pending.map Event.msg ++ Event.timeout :: rest)) =
      { pc := PC.select, posts := [], input := rest,
        trace := flushPosts SendHttp [] pending } ∧
     requests (flushPosts SendHttp [] pending) =
       (match mergeMetrics pending with
        | none => []
        | some payload => [payload])) ∧
    run SendHttp 2 c =
      { pc := PC.select, posts := [], input := c.input,
        trace := c.trace ++ flushPosts SendHttp c.trace c.posts } := by
  have hinit : BufferBounded (Config.init input) := by
    refine ⟨?_, fun _ => ?_⟩ <;> simp [Config.init]
  have hone : ∀ (ps : List WriteOperation) (tr : List Effect), ps.length = 99 →
      (ps ++ [x]).length = 100 ∧
      ∃ payload, mergeMetrics (ps ++ [x]) = some payload ∧
        requests (flushPosts SendHttp tr (ps ++ [x])) = [payload] := by
    intro ps tr hps
    have hlen : (ps ++ [x]).length = 100 := by
      rw [List.length_append, List.length_singleton, hps]
    refine ⟨hlen, ?_⟩
    have h2 := requests_flushPosts SendHttp tr (ps ++ [x])
    cases hm : mergeMetrics (ps ++ [x]) with
    | none =>
      rw [mergeMetrics_eq_none_iff] at hm
      rw [hm] at hlen
      cases hlen
    | some payload =>
      rw [hm] at h2
      exact ⟨payload, rfl, h2⟩
  have h198 : run SendHttp 198 (Config.init (batches.map Event.msg ++ Event.msg x :: rest)) =
      { pc := PC.select, posts := batches, input := Event.msg x :: rest, trace := [] } := by
    have hm := run_msgs SendHttp batches [] (Event.msg x :: rest) []
      (by rw [hb]; decide)
    rw [hb] at hm
    simpa [Config.init] using hm
  have hstep : ∀ k : Nat,
      run SendHttp (198 + k) (Config.init (batches.map Event.msg ++ Event.msg x :: rest)) =
      run SendHttp k
        { pc := PC.select, posts := batches, input := Event.msg x :: rest, trace := [] } := by
    intro k
    rw [run_add, h198]
  obtain ⟨g1, g2, g3, g4⟩ := run_hundredth SendHttp batches x rest [] hb
  obtain ⟨f1, f2, f3, f4⟩ := run_hundredth SendHttp posts x rest trace h99
  have hpm := run_msgs SendHttp pending [] (Event.timeout :: rest) [] (by simpa using hp)
  simp only [List.nil_append] at hpm
  refine ⟨run_bounded SendHttp n _ hinit, ⟨h198, ?_, ?_, ?_, ?_, (hone batches [] hb).1,
    (hone batches [] hb).2⟩, ⟨f1, f2, f3, f4, (hone posts trace h99).1, (hone posts trace h99).2⟩,
    ⟨?_, ?_, requests_flushPosts SendHttp [] pending⟩, ?_⟩
  · rw [hstep 1, g1]
  · rw [hstep 2, g2]
  · rw [hstep 3, g3]
    simp
  · rw [hstep 4, g4]
    simp
  · simpa [Config.init] using hpm
  · rw [run_add, Config.init, hpm]
    simp [run, step]
  · obtain ⟨pc, ps, inp, tr⟩ := c
    simp only at hflush
    rcases hflush with h | h <;> subst h <;> simp [run, step]

/-- C5 at `sampleBatches`, with a delivery that fails and a timeout still waiting -/
theorem shutdown_drains_witness :
    sampleBatches.length < 100 ∧
    run neverDelivered (2 * sampleBatches.length + 3 + 1)
        (Config.init (sampleBatches.map Event.msg ++ Event.close :: [Event.timeout])) =
      { pc := PC.done, posts := sampleBatches, input := [Event.timeout],
        trace := flushPosts neverDelivered [] sampleBatches ++ [Effect.ack] } :=
  ⟨by decide, (shutdown_drains neverDelivered sampleBatches [Event.timeout] 1 (by decide)).1⟩

/-- C9 at 99 copies of the first batch of `sampleBatches` followed by a 100th
batch, started with an empty buffer, with a delivery that fails: after the
100th arrival the loop is back at its `select` with an empty buffer, the 101st
batch still waiting, and the trace is the one flush of the 100 batches -/
theorem size_trigger_invariant_witness :
    (List.replicate 99 ({ Writes := [mergedEntry "cpu" []] } : WriteOperation)).length = 99 ∧
    sampleBatches.length < 100 ∧
    (({ pc := PC.flushTimeout, posts := sampleBatches, input := [], trace := [] } : Config).pc
        = PC.flushSize ∨
      ({ pc := PC.flushTimeout, posts := sampleBatches, input := [], trace := [] } : Config).pc
        = PC.flushTimeout) ∧
    run neverDelivered 198
        (Config.init ((List.replicate 99 { Writes := [mergedEntry "cpu" []] }).map Event.msg ++
          Event.msg { Writes := [mergedEntry "mem" []] } ::
            [Event.msg { Writes := [mergedEntry "late" []] }])) =
      { pc := PC.select, posts := List.replicate 99 { Writes := [mergedEntry "cpu" []] },
        input := Event.msg { Writes := [mergedEntry "mem" []] } ::
          [Event.msg { Writes := [mergedEntry "late" []] }],
        trace := [] } ∧
    run neverDelivered 202
        (Config.init ((List.replicate 99 { Writes := [mergedEntry "cpu" []] }).map Event.msg ++
          Event.msg { Writes := [mergedEntry "mem" []] } ::
            [Event.msg { Writes := [mergedEntry "late" []] }])) =
      { pc := PC.select, posts := [],
        input := [Event.msg { Writes := [mergedEntry "late" []] }],
        trace := flushPosts neverDelivered []
          (List.replicate 99 { Writes := [mergedEntry "cpu" []] } ++
            [{ Writes := [mergedEntry "mem" []] }]) } ∧
    run neverDelivered (2 * sampleBatches.length + 3)
        (Config.init (sampleBatches.map Event.msg ++
          Event.timeout :: [Event.msg { Writes := [mergedEntry "late" []] }])) =
      { pc := PC.select, posts := [],
        input := [Event.msg { Writes := [mergedEntry "late" []] }],
        trace := flushPosts neverDelivered [] sampleBatches } ∧
    run neverDelivered 2
        { pc := PC.flushTimeout, posts := sampleBatches, input := [], trace := [] } =
      { pc := PC.select, posts := [], input := [],
        trace := [] ++ flushPosts neverDelivered [] sampleBatches } :=
  have h := size_trigger_invariant neverDelivered [Event.timeout] 3
    (List.replicate 99 { Writes := [mergedEntry "cpu" []] }) sampleBatches
    (List.replicate 99 { Writes := [mergedEntry "cpu" []] })
    { Writes := [mergedEntry "mem" []] }
    [Event.msg { Writes := [mergedEntry "late" []] }] []
    { pc := PC.flushTimeout, posts := sampleBatches, input := [], trace := [] }
    (List.length_replicate 99 _) (by decide) (List.length_replicate 99 _) (Or.inr rfl)
  ⟨List.length_replicate 99 _, by decide, Or.inr rfl, h.2.1.1, h.2.1.2.2.2.2.1,
    h.2.2.2.1.2.1, h.2.2.2.2⟩

end ErrplaneGo
